import Mathlib

/-! Verification of pixel-video: the frame converter and the frame producer of
`main.go`.

A shallow embedding of `pixToPictureData`, `getFrameRGBA` and `readVideoFrames`
and of the bounded frame channel they feed.

Conventions of the embedding.

* A Go `[]byte` is a `List Byte`; an indexing expression that would panic (or an
  unsafe read that leaves the memory the model knows about) makes the function
  return `none`.
* `width` and `height` are the non-negative dimensions of a frame and are kept in
  `Nat`.  Every index the loops compute is bounded by the length of a slice that
  exists, so 64-bit wraparound does not occur and is not modelled.
* A `for` loop is a fold of its body over the list of values the loop variable
  takes, in the order the loop takes them.
-/

namespace PixelVideo

/-! ## Pixel data -/

/-- One byte of image data (`uint8`). -/
abbrev Byte := Fin 256

/-- Counterpart of `color.RGBA`: four 8-bit channels. -/
structure RGBA where
  R : Byte
  G : Byte
  B : Byte
  A : Byte
deriving DecidableEq, Repr

/-- Counterpart of `pixel.PictureData` for a rectangle `R(0, 0, width, height)`:
the pixel slice, the stride, and the two upper bounds of the rectangle. -/
structure PictureData where
  Pix : List RGBA
  Stride : Nat
  RectW : Nat
  RectH : Nat
deriving DecidableEq, Repr

/-- The zero value of `color.RGBA`, which `make` fills a fresh slice with. -/
def RGBA.zero : RGBA := RGBA.mk 0 0 0 0

/-- Library call `pixel.MakePictureData(pixel.R(0, 0, width, height))`: a picture
of `width * height` zero pixels with stride `width`. -/
def MakePictureData (width height : Nat) : PictureData :=
  PictureData.mk (List.replicate (width * height) RGBA.zero) width width height

/-! ## `pixToPictureData` (main.go, lines 30-44) -/

/-- The read index `y*width*4 + x*4 + c` of lines 36-39. -/
def srcIndex (width y x c : Nat) : Nat := y * width * 4 + x * 4 + c

/-- The write index `(height-y-1)*width + x` of lines 36-39.  The loop only runs
with `y ≤ height - 1`, so the subtraction is exact. -/
def dstIndex (width height y x : Nat) : Nat := (height - y - 1) * width + x

/-- The pairs `(y, x)` in the order the two loops of lines 34-35 visit them:
`y` from `height - 1` down to `0`, and for each `y`, `x` from `0` up to `width - 1`. -/
def pixLoop (width height : Nat) : List (Nat × Nat) :=
  (List.range height).reverse.flatMap
    (fun y => (List.range width).map (fun x => (y, x)))

/-- One assignment `picData.Pix[d].field = pixels[s]`: the read of `pixels[s]` and
the access to `Pix[d]` are both bounds-checked. -/
def assignChannel (pixels : List Byte) (pix : List RGBA) (d s : Nat)
    (upd : RGBA → Byte → RGBA) : Option (List RGBA) :=
  match pixels[s]?, pix[d]? with
  | some v, some p => some (pix.set d (upd p v))
  | _, _ => none

/-- The body of the inner loop, lines 36-39: the four channel assignments. -/
def pixBody (pixels : List Byte) (width height : Nat) (pix : List RGBA)
    (yx : Nat × Nat) : Option (List RGBA) := do
  let d := dstIndex width height yx.1 yx.2
  let pix ← assignChannel pixels pix d (srcIndex width yx.1 yx.2 0)
    (fun p v => RGBA.mk v p.G p.B p.A)
  let pix ← assignChannel pixels pix d (srcIndex width yx.1 yx.2 1)
    (fun p v => RGBA.mk p.R v p.B p.A)
  let pix ← assignChannel pixels pix d (srcIndex width yx.1 yx.2 2)
    (fun p v => RGBA.mk p.R p.G v p.A)
  assignChannel pixels pix d (srcIndex width yx.1 yx.2 3)
    (fun p v => RGBA.mk p.R p.G p.B v)

/-- Function `pixToPictureData`: allocate the picture, run the two loops, return
the picture; `none` when an index is out of range. -/
def pixToPictureData (pixels : List Byte) (width height : Nat) : Option PictureData :=
  let picData := MakePictureData width height
  ((pixLoop width height).foldlM (pixBody pixels width height) picData.Pix).map
    (fun pix => PictureData.mk pix picData.Stride picData.RectW picData.RectH)

/-- The read indices the loops use, in program order. -/
def pixReads (width height : Nat) : List Nat :=
  (pixLoop width height).flatMap
    (fun yx => (List.range 4).map (fun c => srcIndex width yx.1 yx.2 c))

/-- The write indices the loops use, in program order (one per iteration of the
inner loop; its four assignments share the index). -/
def pixWrites (width height : Nat) : List Nat :=
  (pixLoop width height).map (fun yx => dstIndex width height yx.1 yx.2)

/-! ## `getFrameRGBA` (main.go, lines 46-64) -/

/-- What `getFrameRGBA` uses of an `avutil.Frame`: the bytes stored from the address
`avutil.Data(frame)[0]` on (plane 0), and `avutil.Linesize(frame)[0]`, the distance
in bytes between the starts of two consecutive rows. -/
structure Frame where
  data0 : List Byte
  linesize0 : Nat
deriving DecidableEq, Repr

/-- The body of the inner loop, lines 56-57: the unsafe read of the byte at address
`startPos + i` and the assignment `buf[i] = element`.  Addresses are counted from
the start of plane 0; a read past the bytes of the plane has no defined value. -/
def rowBody (frame : Frame) (startPos : Nat) (buf : List Byte) (i : Nat) :
    Option (List Byte) :=
  match frame.data0[startPos + i]?, buf[i]? with
  | some element, some _ => some (buf.set i element)
  | _, _ => none

/-- The body of the outer loop, lines 50-60: a fresh `buf` of `width*4` bytes, the
row start `y * linesize`, the inner loop over `i`, and `pix = append(pix, buf...)`. -/
def frameRowBody (frame : Frame) (width : Nat) (pix : List Byte) (y : Nat) :
    Option (List Byte) := do
  let buf := List.replicate (width * 4) (0 : Byte)
  let startPos := y * frame.linesize0
  let buf ← (List.range (width * 4)).foldlM (rowBody frame startPos) buf
  some (pix ++ buf)

/-- Lines 47-61 of `getFrameRGBA`: the packed buffer `pix` built from the frame. -/
def packFrame (frame : Frame) (width height : Nat) : Option (List Byte) :=
  (List.range height).foldlM (frameRowBody frame width) []

/-- Function `getFrameRGBA`: pack the rows of the frame, then hand the packed buffer
to `pixToPictureData`. -/
def getFrameRGBA (frame : Frame) (width height : Nat) : Option PictureData :=
  (packFrame frame width height).bind (fun pix => pixToPictureData pix width height)

/-! ## The decode library as `readVideoFrames` sees it (main.go, lines 66-229)

The calls into `avformat`, `avcodec`, `avutil` and `swscale` are library code.  A
run of the producer is determined by what these calls answer, so the answers are
the input of the model: the return codes of the set-up calls, the list of streams,
the packets `AvReadFrame` delivers, and for each packet the answers of the decoder.
-/

/-- The media types `AvCodecGetType` can answer (`AVMediaType`). -/
inductive MediaType where
  | unknown
  | video
  | audio
  | data
  | subtitle
  | attachment
deriving DecidableEq, Repr

/-- The two constants of package `avutil` the drain loop compares against
(`avutil.AvErrorEAGAIN`, `avutil.AvErrorEOF`).  Their values are not in this
repository and are parameters of the model.  They are what the code tests for; the
code a decoder answers when it has no frame ready is an answer of the decoder
(field `response` of `Received`) and need not be one of them. -/
structure AvError where
  AvErrorEAGAIN : Int
  AvErrorEOF : Int
deriving DecidableEq, Repr

/-- One call of `AvcodecReceiveFrame`: the code it returns, and the content of
`pFrameRGB` once `SwsScale2` has converted what the call left in `pFrame`. -/
structure Received where
  response : Int
  rgb : Frame
deriving DecidableEq, Repr

/-- One packet `AvReadFrame` delivers: its stream index, the code
`AvcodecSendPacket` answers for it, and the answers of the `AvcodecReceiveFrame`
calls made while the packet is drained, in call order.  The listed answers are
the whole behaviour of the decoder for the packet: the drain loop of the model
ends when they are used up, as it does on an answer equal to one of the two
constants of `AvError` or on a negative answer. -/
structure Packet where
  StreamIndex : Int
  sendResponse : Int
  receives : List Received
deriving DecidableEq, Repr

/-- One entry of `pFormatContext.Streams()` with the answers of the set-up calls
made for it: the media type, whether `AvcodecFindDecoder` finds a decoder, the
codes of `AvcodecCopyContext` and `AvcodecOpen2`, whether `AvFrameAlloc` returns a
frame for `pFrameRGB`, and the dimensions of the codec context. -/
structure Stream where
  codecType : MediaType
  decoderFound : Bool
  copyContext : Int
  open2 : Int
  rgbFrameAllocated : Bool
  Width : Nat
  Height : Nat
deriving DecidableEq, Repr

/-- The answers of the library for one video file.  `streams` is what
`NbStreams()` and `Streams()` report while the input is open.  Line 214 closes the
input inside the stream loop, the `break` of line 217 ends the `switch` only, and
the loop header (lines 89-91) is evaluated again on the closed input.  What a
closed input reports is decided by the library, not by this repository, and is
the separate field `closedStreams`; FFmpeg releases every stream and leaves the
stream count at 0 when it closes an input, which is `closedStreams = []`.
`packets` are the packets `AvReadFrame` delivers before it first answers a
negative code; from then on it keeps answering one. -/
structure Input where
  codes : AvError
  openInput : Int
  findStreamInfo : Int
  streams : List Stream
  closedStreams : List Stream
  packets : List Packet
deriving DecidableEq, Repr

/-- The messages the producer prints. -/
inductive Diag where
  | unableToOpenFile
  | couldntFindStreamInformation
  | unsupportedCodec
  | couldntCopyCodecContext
  | couldNotOpenCodec
  | unableToAllocateRGBFrame
  | errorSendingPacket (response : Int)
  | errorReceivingFrame (response : Int)
  | didntFindVideoStream
deriving DecidableEq, Repr

/-- What a run of the producer does, as far as the claims observe it. -/
inductive Event where
  | print (d : Diag)
  | sendPacket (response : Int)
  | receiveFrame (r : Received)
  | push (frame : PictureData)
  | closeInput
  | closeQueue
deriving DecidableEq, Repr

/-- How a run ends before control reaches the end of the code: `os.Exit(code)`, or
a memory fault in the conversion of a frame. -/
inductive Halt where
  | osExit (code : Nat)
  | fault
deriving DecidableEq, Repr

/-- The events of a piece of code, and how it stopped the process if it did
(`none`: control reaches the end of the piece). -/
structure Run where
  events : List Event
  halt : Option Halt
deriving DecidableEq, Repr

/-- A piece of code that does nothing. -/
def Run.skip : Run := Run.mk [] none

/-- Sequential composition: `next` runs only if `first` did not stop the process. -/
def Run.andThen (first next : Run) : Run :=
  match first.halt with
  | some h => Run.mk first.events (some h)
  | none => Run.mk (first.events ++ next.events) next.halt

/-- A fatal error: print the message, `os.Exit(1)`. -/
def fatal (d : Diag) : Run := Run.mk [Event.print d] (some (Halt.osExit 1))

/-- The drain loop `for response >= 0`, lines 172-195, entered with a non-negative
`response`; the argument lists the answers of the receive calls still to come.
Each pass calls `AvcodecReceiveFrame`; on an answer equal to `AvErrorEAGAIN` or
`AvErrorEOF` it breaks; on another negative code it prints the error and falls
through; then it converts the frame, pushes it, and tests `response >= 0` again. -/
def drainLoop (c : AvError) (width height : Nat) : List Received → Run
  | [] => Run.skip
  | r :: rest =>
    if r.response = c.AvErrorEAGAIN ∨ r.response = c.AvErrorEOF then
      Run.mk [Event.receiveFrame r] none
    else
      let logged := if r.response < 0 then [Event.print (Diag.errorReceivingFrame r.response)]
        else []
      match getFrameRGBA r.rgb width height with
      | none => Run.mk (Event.receiveFrame r :: logged) (some Halt.fault)
      | some frame =>
        (Run.mk (Event.receiveFrame r :: logged ++ [Event.push frame]) none).andThen
          (if 0 ≤ r.response then drainLoop c width height rest else Run.skip)

/-- The body of the packet loop, lines 162-199, for the stream of index `i`. -/
def packetBody (c : AvError) (i width height : Nat) (packet : Packet) : Run :=
  if packet.StreamIndex = (i : Int) then
    (Run.mk (Event.sendPacket packet.sendResponse ::
        (if packet.sendResponse < 0
          then [Event.print (Diag.errorSendingPacket packet.sendResponse)] else []))
      none).andThen
      (if 0 ≤ packet.sendResponse then drainLoop c width height packet.receives
        else Run.skip)
  else Run.skip

/-- The packet loop `for pFormatContext.AvReadFrame(packet) >= 0`, lines 161-200. -/
def packetLoop (c : AvError) (i width height : Nat) : List Packet → Run
  | [] => Run.skip
  | packet :: rest =>
    (packetBody c i width height packet).andThen (packetLoop c i width height rest)

/-- The `case avformat.AVMEDIA_TYPE_VIDEO` branch, lines 94-217: the set-up calls
with their fatal exits, the packet loop, the release of the resources, and line
214, which closes the input.  The `break` of line 217 ends the `switch`. -/
def decodeStream (c : AvError) (i : Nat) (st : Stream) (packets : List Packet) : Run :=
  if st.decoderFound = false then fatal Diag.unsupportedCodec
  else if st.copyContext ≠ 0 then fatal Diag.couldntCopyCodecContext
  else if st.open2 < 0 then fatal Diag.couldNotOpenCodec
  else if st.rgbFrameAllocated = false then fatal Diag.unableToAllocateRGBFrame
  else (packetLoop c i st.Width st.Height packets).andThen (Run.mk [Event.closeInput] none)

/-- The body of the stream loop, the `switch` of lines 90-222, for stream `i`. -/
def streamBody (c : AvError) (i : Nat) (st : Stream) (packets : List Packet) : Run :=
  match st.codecType with
  | MediaType.video => decodeStream c i st packets
  | _ => fatal Diag.didntFindVideoStream

/-- The stream loop from index `i` on, over the streams a closed input reports: the
passes that follow a pass through the video branch.  `AvReadFrame` has already
answered a negative code, so a further packet loop gets no packet. -/
def scanClosed (c : AvError) : Nat → List Stream → Run
  | _, [] => Run.skip
  | i, st :: rest => (streamBody c i st []).andThen (scanClosed c (i + 1) rest)

/-- The stream loop `for i := 0; i < int(pFormatContext.NbStreams()); i++`, lines
89-223.  The first pass reads the open input.  It either exits (stream 0 is not a
video stream) or goes through the video branch, which closes the input, so every
later pass reads what the closed input reports. -/
def scanStreams (inp : Input) : Run :=
  match inp.streams with
  | [] => Run.skip
  | st :: _ =>
    (streamBody inp.codes 0 st inp.packets).andThen
      (scanClosed inp.codes 1 (inp.closedStreams.drop 1))

/-- The goroutine of `readVideoFrames`, lines 70-226. -/
def readVideoFrames (inp : Input) : Run :=
  if inp.openInput ≠ 0 then fatal Diag.unableToOpenFile
  else if inp.findStreamInfo < 0 then fatal Diag.couldntFindStreamInformation
  else (scanStreams inp).andThen (Run.mk [Event.closeQueue] none)

/-- The same file with its stream list cut off after index `k`. -/
def Input.cutAfter (inp : Input) (k : Nat) : Input :=
  Input.mk inp.codes inp.openInput inp.findStreamInfo (inp.streams.take (k + 1))
    inp.closedStreams inp.packets

/-- The pictures a sequence of events pushes onto the frame queue, in order. -/
def pushed : List Event → List PictureData
  | [] => []
  | Event.push frame :: rest => frame :: pushed rest
  | _ :: rest => pushed rest

/-- The number of times a sequence of events closes the frame queue. -/
def closes (events : List Event) : Nat := events.count Event.closeQueue

/-- The frames the receive calls recorded in a sequence of events returned: the
content of each call that answered a non-negative code, in call order. -/
def framesReturned : List Event → List Frame
  | [] => []
  | Event.receiveFrame r :: rest =>
    if 0 ≤ r.response then r.rgb :: framesReturned rest else framesReturned rest
  | _ :: rest => framesReturned rest

/-- The frames the decoder returns while one packet is drained: its answers up to
the first one that is not a frame. -/
def framesOfPacket (packet : Packet) : List Frame :=
  (packet.receives.takeWhile (fun r => decide (0 ≤ r.response))).map Received.rgb

/-- The frames the decoder returns for the packets of stream `i` it accepts, in
decode order. -/
def framesDecoded (i : Nat) (packets : List Packet) : List Frame :=
  (packets.filter (fun packet =>
    decide (packet.StreamIndex = (i : Int) ∧ 0 ≤ packet.sendResponse))).flatMap framesOfPacket

/-- Plane 0 of the frame holds the `height` rows of `width*4` bytes that
`getFrameRGBA` reads: at least `(height-1)*linesize + width*4` bytes. -/
def FrameFits (frame : Frame) (width height : Nat) : Prop :=
  ((height : Int) - 1) * (frame.linesize0 : Int) + ((width * 4 : Nat) : Int)
    ≤ (frame.data0.length : Int)

instance (frame : Frame) (width height : Nat) : Decidable (FrameFits frame width height) := by
  unfold FrameFits; infer_instance

/-! ## The frame channel (main.go, lines 23, 68, 194, 225, 258-271)

`frameBuffer` is a Go channel with a buffer of `FrameBufferSize` elements.  The
producer goroutine sends on it (line 194) and closes it (line 225); the render
loop receives from it in a `select` with a `default` branch (lines 258-271).  The
semantics of the channel are those of the Go language: a send proceeds when the
buffer is not full, a receive takes the oldest element of a non-empty buffer.
-/

/-- The constant `FrameBufferSize`: the capacity of the frame channel. -/
def FrameBufferSize : Nat := 60

/-- The two goroutines that use the channel. -/
inductive Actor where
  | producer
  | consumer
deriving DecidableEq, Repr

/-- A state of the producer/consumer system: the frames buffered in the channel,
oldest first; whether the channel is closed; the events the producer has still to
perform and the way its run ends; the frames the render loop has received. -/
structure System where
  queue : List PictureData
  closed : Bool
  todo : List Event
  halt : Option Halt
  shown : List PictureData
deriving DecidableEq, Repr

/-- The system at the start of a run of the producer: `make(chan, FrameBufferSize)`
has created an empty open channel. -/
def System.init (run : Run) : System := System.mk [] false run.events run.halt []

/-- Whether the producer has stopped the whole process (`os.Exit` or a fault). -/
def System.exited (s : System) : Bool := s.todo.isEmpty && s.halt.isSome

/-- One step of one goroutine; `none` when the goroutine cannot move.  The producer
performs its next event: a push needs a free slot in the buffer (otherwise the
send blocks), `close` marks the channel closed, any other event leaves the channel
alone.  The render loop polls the channel: it takes the oldest frame if there is
one, takes the `default` branch if the channel is empty and open, and ends the
process if the channel is empty and closed. -/
def System.step (s : System) : Actor → Option System
  | Actor.producer =>
    match s.todo with
    | [] => none
    | Event.push frame :: rest =>
      if s.queue.length < FrameBufferSize then
        some (System.mk (s.queue ++ [frame]) s.closed rest s.halt s.shown)
      else none
    | Event.closeQueue :: rest => some (System.mk s.queue true rest s.halt s.shown)
    | _ :: rest => some (System.mk s.queue s.closed rest s.halt s.shown)
  | Actor.consumer =>
    if s.exited then none
    else
      match s.queue with
      | frame :: rest => some (System.mk rest s.closed s.todo s.halt (s.shown ++ [frame]))
      | [] => if s.closed then none else some s

/-- The state a schedule of steps leads to; `none` if one of its steps cannot be
taken. -/
def System.exec : System → List Actor → Option System
  | s, [] => some s
  | s, a :: rest =>
    match s.step a with
    | none => none
    | some next => next.exec rest

/-! ## Closed forms and predicates of the proofs -/

/-- The pixel made of the four bytes of `pixels` starting at index `j`. -/
def srcPixel (pixels : List Byte) (j : Nat) : RGBA :=
  RGBA.mk (pixels.getD j 0) (pixels.getD (j + 1) 0) (pixels.getD (j + 2) 0)
    (pixels.getD (j + 3) 0)

/-- A sequence of writes `pix[f a] = g a`, one for each `a` of `l`, in order. -/
def writeAll {α β : Type} (f : α → Nat) (g : α → β) (l : List α) (pix : List β) : List β :=
  l.foldl (fun acc a => acc.set (f a) (g a)) pix

/-- The pixel slice the loops leave behind when no access is out of range. -/
def flippedPix (pixels : List Byte) (width height : Nat) : List RGBA :=
  writeAll (fun yx => dstIndex width height yx.1 yx.2)
    (fun yx => srcPixel pixels (srcIndex width yx.1 yx.2 0)) (pixLoop width height)
    (List.replicate (width * height) RGBA.zero)

/-- The row buffer the inner loop leaves behind for a row starting at `startPos`. -/
def packedRow (frame : Frame) (startPos n : Nat) : List Byte :=
  writeAll (fun i => i) (fun i => frame.data0.getD (startPos + i) 0) (List.range n)
    (List.replicate n (0 : Byte))

/-- A run that does not stop the process and pushes exactly the conversions of the
frames in `frames`, which are the frames its receive calls returned. -/
def Faithful (width height : Nat) (frames : List Frame) (run : Run) : Prop :=
  run.halt = none ∧ framesReturned run.events = frames ∧
    (pushed run.events).map some = frames.map (fun f => getFrameRGBA f width height)

/-- A piece of code that does not close the frame queue. -/
def NoClose (run : Run) : Prop := Event.closeQueue ∉ run.events

/-- The invariant of the system: the buffer is within its capacity, and the frames
received, buffered and still to be pushed are, in this order, the frames of the
run. -/
def System.Inv (frames : List PictureData) (s : System) : Prop :=
  s.queue.length ≤ FrameBufferSize ∧ s.shown ++ s.queue ++ pushed s.todo = frames

/-! ## Sample inputs -/

/-- The bytes of a 1x2 RGBA image: the top row `1 2 3 4`, the bottom row `5 6 7 8`. -/
def twoRows : List Byte := [1, 2, 3, 4, 5, 6, 7, 8]

/-- A 1x2 RGBA frame whose rows are 6 bytes apart: two bytes of padding follow the
first row. -/
def paddedFrame : Frame := Frame.mk [1, 2, 3, 4, 99, 98, 5, 6, 7, 8] 6

/-- The values package `avutil` of goav gives the two constants on every platform:
`AvErrorEAGAIN = -35` and `AvErrorEOF = -('E' | 'O'<<8 | 'F'<<16 | ' '<<24)`. -/
def goavCodes : AvError := AvError.mk (-35) (-541478725)

/-- A video stream of 1x1 frames for which every set-up call succeeds. -/
def videoStream : Stream := Stream.mk MediaType.video true 0 0 true 1 1

/-- An audio stream. -/
def audioStream : Stream := Stream.mk MediaType.audio true 0 0 true 0 0

/-- A 1x1 RGBA frame of the given grey level. -/
def greyFrame (v : Byte) : Frame := Frame.mk [v, v, v, 255] 4

/-- The picture `getFrameRGBA` makes of `greyFrame v`. -/
def greyPicture (v : Byte) : PictureData := PictureData.mk [RGBA.mk v v v 255] 1 1 1

/-- A packet of stream 0 that the decoder accepts and answers with one frame and
then with "not ready", on a platform where that answer is -35 (`EAGAIN` is 35 on
macOS and the BSDs), the value of goav's constant.  After the failed call
`pFrameRGB` still shows the frame converted last. -/
def framePacket (v : Byte) : Packet :=
  Packet.mk 0 0 [Received.mk 0 (greyFrame v), Received.mk (-35) (greyFrame v)]

/-- The same packet on Linux, where the decoder's "not ready" answer is -11
(`EAGAIN` is 11). -/
def linuxFramePacket (v : Byte) : Packet :=
  Packet.mk 0 0 [Received.mk 0 (greyFrame v), Received.mk (-11) (greyFrame v)]

/-- A packet of stream 1 that the decoder accepts and answers with one frame. -/
def secondStreamPacket (v : Byte) : Packet :=
  Packet.mk 1 0 [Received.mk 0 (greyFrame v), Received.mk (-35) (greyFrame v)]

/-- A packet of stream 0 for which the receive call fails with `AVERROR_INVALIDDATA`
while `pFrameRGB` shows a frame of grey level `v`. -/
def corruptPacket (v : Byte) : Packet := Packet.mk 0 0 [Received.mk (-1094995529) (greyFrame v)]

/-- A file that opens and probes successfully, reports `streams` while open and
no stream once closed, and delivers `packets`; the constants are goav's. -/
def fileOf (streams : List Stream) (packets : List Packet) : Input :=
  Input.mk goavCodes 0 0 streams [] packets

/-- A file that cannot be opened: `AvformatOpenInput` answers a non-zero code. -/
def missingFile : Input := Input.mk goavCodes (-2) 0 [] [] []

/-- Frame number `k` of the stress stream. -/
def stressFrame (k : Nat) : Frame := greyFrame (Fin.ofNat k)

/-- Packet number `k` of the stress stream, for a decoder whose "not ready" answer
is `notReady`.  On every third packet the decoder answers "not ready" at once; the
frame it holds back comes out in front of the frame of the next packet.  After a
"not ready" answer `pFrameRGB` still shows the frame converted last. -/
def stressPacket (notReady : Int) (k : Nat) : Packet :=
  if k % 3 = 2 then Packet.mk 0 0 [Received.mk notReady (stressFrame (k - 1))]
  else if k % 3 = 0 ∧ 0 < k then
    Packet.mk 0 0 [Received.mk 0 (stressFrame (k - 1)), Received.mk 0 (stressFrame k),
      Received.mk notReady (stressFrame k)]
  else Packet.mk 0 0 [Received.mk 0 (stressFrame k), Received.mk notReady (stressFrame k)]

/-- The stress stream: 100 packets carrying 100 frames. -/
def stressPackets (notReady : Int) : List Packet :=
  (List.range 100).map (stressPacket notReady)

/-- A video file of 61 frames. -/
def longFile : Input :=
  fileOf [videoStream] ((List.range 61).map (fun k => framePacket (Fin.ofNat k)))

/-- The state of the system after 242 steps of the producer on `longFile` and none
of the render loop: 60 frames are buffered and the push of frame 60 is pending. -/
def fullSystem : System :=
  System.mk ((List.range 60).map (fun k => greyPicture (Fin.ofNat k))) false
    [Event.push (greyPicture 60), Event.receiveFrame (Received.mk (-35) (greyFrame 60)),
      Event.closeInput, Event.closeQueue] none []

/-! # Theorems -/

/-! ## The converter loops -/

theorem assignChannel_eq (pixels : List Byte) (pix : List RGBA) (d s : Nat)
    (upd : RGBA → Byte → RGBA) (hs : s < pixels.length) (hd : d < pix.length) :
    assignChannel pixels pix d s upd
      = some (pix.set d (upd (pix.getD d RGBA.zero) (pixels.getD s 0))) := by
  simp [assignChannel, List.getElem?_eq_getElem hs, List.getElem?_eq_getElem hd,
    List.getD_eq_getElem _ _ hs, List.getD_eq_getElem _ _ hd]

theorem pixBody_eq (pixels : List Byte) (width height : Nat) (pix : List RGBA)
    (y x : Nat) (hs : srcIndex width y x 3 < pixels.length)
    (hd : dstIndex width height y x < pix.length) :
    pixBody pixels width height pix (y, x)
      = some (pix.set (dstIndex width height y x)
          (srcPixel pixels (srcIndex width y x 0))) := by
  have h0 : srcIndex width y x 0 < pixels.length := by
    unfold srcIndex at *; omega
  have h1 : srcIndex width y x 1 < pixels.length := by
    unfold srcIndex at *; omega
  have h2 : srcIndex width y x 2 < pixels.length := by
    unfold srcIndex at *; omega
  have e1 : srcIndex width y x 1 = srcIndex width y x 0 + 1 := by
    unfold srcIndex; omega
  have e2 : srcIndex width y x 2 = srcIndex width y x 0 + 2 := by
    unfold srcIndex; omega
  have e3 : srcIndex width y x 3 = srcIndex width y x 0 + 3 := by
    unfold srcIndex; omega
  simp only [pixBody]
  rw [assignChannel_eq _ _ _ _ _ h0 hd]
  simp only [Option.bind_eq_bind, Option.some_bind]
  rw [assignChannel_eq _ _ _ _ _ h1 (by simpa using hd)]
  simp only [Option.some_bind]
  rw [assignChannel_eq _ _ _ _ _ h2 (by simpa using hd)]
  simp only [Option.some_bind]
  rw [assignChannel_eq _ _ _ _ _ hs (by simpa using hd)]
  simp [srcPixel, List.set_set, List.getD_eq_getElem?_getD, List.getElem?_set, hd, e1, e2, e3]

theorem writeAll_length {α β : Type} (f : α → Nat) (g : α → β) (l : List α) :
    ∀ pix : List β, (writeAll f g l pix).length = pix.length := by
  induction l with
  | nil => intro pix; rfl
  | cons a l ih =>
    intro pix
    simp only [writeAll, List.foldl_cons] at ih ⊢
    rw [ih]; simp

theorem writeAll_untouched {α β : Type} (f : α → Nat) (g : α → β) (l : List α) (d : Nat) :
    ∀ pix : List β, (∀ a ∈ l, f a ≠ d) → (writeAll f g l pix)[d]? = pix[d]? := by
  induction l with
  | nil => intro pix _; rfl
  | cons a l ih =>
    intro pix h
    simp only [writeAll, List.foldl_cons] at ih ⊢
    rw [ih _ (fun b hb => h b (List.mem_cons_of_mem _ hb))]
    exact List.getElem?_set_ne (h a (List.mem_cons_self _ _))

theorem writeAll_written {α β : Type} (f : α → Nat) (g : α → β) (l : List α) (d : Nat)
    (v : β) :
    ∀ pix : List β, d < pix.length → (∃ a ∈ l, f a = d) →
      (∀ a ∈ l, f a = d → g a = v) → (writeAll f g l pix)[d]? = some v := by
  induction l with
  | nil => intro pix _ h; simp at h
  | cons a l ih =>
    intro pix hd hex hval
    simp only [writeAll, List.foldl_cons] at ih ⊢
    by_cases hl : ∃ b ∈ l, f b = d
    · exact ih _ (by simpa using hd) hl
        (fun b hb => hval b (List.mem_cons_of_mem _ hb))
    · have hnot : ∀ b ∈ l, f b ≠ d := fun b hb hbd => hl ⟨b, hb, hbd⟩
      have hfa : f a = d := by
        obtain ⟨b, hb, hbd⟩ := hex
        rcases List.mem_cons.1 hb with rfl | hb'
        · exact hbd
        · exact absurd hbd (hnot b hb')
      have := writeAll_untouched f g l d (pix.set (f a) (g a)) hnot
      simp only [writeAll] at this
      rw [this, hfa, List.getElem?_set_self hd, hval a (List.mem_cons_self _ _) hfa]

theorem foldlM_pixBody (pixels : List Byte) (width height n : Nat) (l : List (Nat × Nat)) :
    ∀ pix : List RGBA, pix.length = n →
      (∀ yx ∈ l, srcIndex width yx.1 yx.2 3 < pixels.length ∧
        dstIndex width height yx.1 yx.2 < n) →
      l.foldlM (pixBody pixels width height) pix
        = some (writeAll (fun yx => dstIndex width height yx.1 yx.2)
            (fun yx => srcPixel pixels (srcIndex width yx.1 yx.2 0)) l pix) := by
  induction l with
  | nil => intro pix _ _; rfl
  | cons a l ih =>
    intro pix hn h
    obtain ⟨y, x⟩ := a
    have ha := h (y, x) (List.mem_cons_self _ _)
    rw [List.foldlM_cons, pixBody_eq pixels width height pix y x ha.1 (by rw [hn]; exact ha.2)]
    simp only [Option.bind_eq_bind, Option.some_bind]
    rw [ih _ (by simpa using hn) (fun b hb => h b (List.mem_cons_of_mem _ hb))]
    rfl

theorem row_col_lt (a b w h : Nat) (ha : a < h) (hb : b < w) : a * w + b < h * w := by
  have h1 : (a + 1) * w ≤ h * w := Nat.mul_le_mul_right w ha
  have h2 : (a + 1) * w = a * w + w := by ring
  omega

theorem row_col_inj (a b a' b' w : Nat) (hb : b < w) (hb' : b' < w)
    (h : a * w + b = a' * w + b') : a = a' ∧ b = b' := by
  have hw : 0 < w := by omega
  have hd : (a * w + b) / w = (a' * w + b') / w := by rw [h]
  have hm : (a * w + b) % w = (a' * w + b') % w := by rw [h]
  rw [Nat.mul_comm a w, Nat.mul_comm a' w, Nat.mul_add_div hw, Nat.mul_add_div hw,
    Nat.div_eq_of_lt hb, Nat.div_eq_of_lt hb'] at hd
  rw [Nat.mul_comm a w, Nat.mul_comm a' w, Nat.mul_add_mod, Nat.mul_add_mod,
    Nat.mod_eq_of_lt hb, Nat.mod_eq_of_lt hb'] at hm
  exact ⟨by simpa using hd, hm⟩

theorem mem_pixLoop (width height : Nat) (yx : Nat × Nat) :
    yx ∈ pixLoop width height ↔ yx.1 < height ∧ yx.2 < width := by
  obtain ⟨y, x⟩ := yx
  simp only [pixLoop, List.mem_flatMap, List.mem_reverse, List.mem_range, List.mem_map,
    Prod.mk.injEq]
  constructor
  · rintro ⟨a, ha, b, hb, rfl, rfl⟩; exact ⟨ha, hb⟩
  · rintro ⟨hy, hx⟩; exact ⟨y, hy, x, hx, rfl, rfl⟩

theorem srcIndex_lt (width height y x c : Nat) (hy : y < height) (hx : x < width)
    (hc : c < 4) : srcIndex width y x c < width * height * 4 := by
  have h := row_col_lt y x width height hy hx
  have e : width * height = height * width := Nat.mul_comm _ _
  unfold srcIndex
  rw [e]
  omega

theorem dstIndex_lt (width height y x : Nat) (hy : y < height) (hx : x < width) :
    dstIndex width height y x < width * height := by
  have h := row_col_lt (height - y - 1) x width height (by omega) hx
  rw [Nat.mul_comm width height]
  exact h

theorem dstIndex_inj (width height y x y' x' : Nat) (hy : y < height) (hx : x < width)
    (hy' : y' < height) (hx' : x' < width)
    (h : dstIndex width height y x = dstIndex width height y' x') : y = y' ∧ x = x' := by
  have := row_col_inj _ _ _ _ width hx hx' h
  omega

theorem pixToPictureData_eq (pixels : List Byte) (width height : Nat)
    (hlen : width * height * 4 ≤ pixels.length) :
    pixToPictureData pixels width height
      = some (PictureData.mk (flippedPix pixels width height) width width height) := by
  unfold pixToPictureData MakePictureData
  simp only []
  rw [foldlM_pixBody pixels width height (width * height) (pixLoop width height) _
    (by simp)]
  · rfl
  · intro yx hyx
    rw [mem_pixLoop] at hyx
    exact ⟨lt_of_lt_of_le (srcIndex_lt width height yx.1 yx.2 3 hyx.1 hyx.2 (by omega)) hlen,
      dstIndex_lt width height yx.1 yx.2 hyx.1 hyx.2⟩

theorem flippedPix_length (pixels : List Byte) (width height : Nat) :
    (flippedPix pixels width height).length = width * height := by
  simp [flippedPix, writeAll_length]

theorem flippedPix_getElem? (pixels : List Byte) (width height r x : Nat)
    (hr : r < height) (hx : x < width) :
    (flippedPix pixels width height)[r * width + x]?
      = some (srcPixel pixels ((height - 1 - r) * width * 4 + x * 4)) := by
  have hy : height - 1 - r < height := by omega
  have hd : dstIndex width height (height - 1 - r) x = r * width + x := by
    unfold dstIndex
    have : height - (height - 1 - r) - 1 = r := by omega
    rw [this]
  unfold flippedPix
  apply writeAll_written
  · simp only [List.length_replicate]
    rw [Nat.mul_comm width height]
    exact row_col_lt r x width height hr hx
  · exact ⟨(height - 1 - r, x), (mem_pixLoop _ _ _).2 ⟨hy, hx⟩, hd⟩
  · intro a ha hda
    rw [mem_pixLoop] at ha
    have := dstIndex_inj width height a.1 a.2 (height - 1 - r) x ha.1 ha.2 hy hx
      (by rw [hda, hd])
    simp only [this.1, this.2, srcIndex, Nat.add_zero]

theorem srcPixel_channels (pixels : List Byte) (j : Nat) (h : j + 3 < pixels.length) :
    pixels[j + 0]? = some (srcPixel pixels j).R ∧ pixels[j + 1]? = some (srcPixel pixels j).G ∧
    pixels[j + 2]? = some (srcPixel pixels j).B ∧ pixels[j + 3]? = some (srcPixel pixels j).A := by
  have h0 : j < pixels.length := by omega
  have h1 : j + 1 < pixels.length := by omega
  have h2 : j + 2 < pixels.length := by omega
  simp [srcPixel, List.getD_eq_getElem _ _ h0, List.getD_eq_getElem _ _ h1,
    List.getD_eq_getElem _ _ h2, List.getD_eq_getElem _ _ h, List.getElem?_eq_getElem h0,
    List.getElem?_eq_getElem h1, List.getElem?_eq_getElem h2, List.getElem?_eq_getElem h]

/-- Claim C1: on a buffer of exactly `width*height*4` bytes `pixToPictureData` returns
a picture of `width*height` pixels whose pixel `r*width + x` carries, channel by
channel, the four source bytes at `(height-1-r)*width*4 + x*4 + 0..3`: the source
flipped vertically, with no channel value changed. -/
theorem pixToPictureData_vertical_flip (pixels : List Byte) (width height : Nat)
    (hlen : pixels.length = width * height * 4) :
    ∃ pic, pixToPictureData pixels width height = some pic ∧
      pic.Pix.length = width * height ∧
      ∀ r x, r < height → x < width →
        ∃ p, pic.Pix[r * width + x]? = some p ∧
          pixels[(height - 1 - r) * width * 4 + x * 4 + 0]? = some p.R ∧
          pixels[(height - 1 - r) * width * 4 + x * 4 + 1]? = some p.G ∧
          pixels[(height - 1 - r) * width * 4 + x * 4 + 2]? = some p.B ∧
          pixels[(height - 1 - r) * width * 4 + x * 4 + 3]? = some p.A := by
  refine ⟨_, pixToPictureData_eq pixels width height (le_of_eq hlen.symm),
    flippedPix_length pixels width height, ?_⟩
  intro r x hr hx
  refine ⟨_, flippedPix_getElem? pixels width height r x hr hx, ?_⟩
  apply srcPixel_channels
  have := srcIndex_lt width height (height - 1 - r) x 3 (by omega) hx (by omega)
  unfold srcIndex at this
  omega

/-- Instance of claim C1 on the 1x2 image `twoRows`: the picture is
`[(5,6,7,8), (1,2,3,4)]`, the bottom row first. -/
theorem pixToPictureData_vertical_flip_witness :
    twoRows.length = 1 * 2 * 4 ∧
    pixToPictureData twoRows 1 2
      = some (PictureData.mk [RGBA.mk 5 6 7 8, RGBA.mk 1 2 3 4] 1 1 2) ∧
    ∃ pic, pixToPictureData twoRows 1 2 = some pic ∧
      pic.Pix.length = 1 * 2 ∧
      ∀ r x, r < 2 → x < 1 →
        ∃ p, pic.Pix[r * 1 + x]? = some p ∧
          twoRows[(2 - 1 - r) * 1 * 4 + x * 4 + 0]? = some p.R ∧
          twoRows[(2 - 1 - r) * 1 * 4 + x * 4 + 1]? = some p.G ∧
          twoRows[(2 - 1 - r) * 1 * 4 + x * 4 + 2]? = some p.B ∧
          twoRows[(2 - 1 - r) * 1 * 4 + x * 4 + 3]? = some p.A :=
  ⟨by decide, by decide, pixToPictureData_vertical_flip twoRows 1 2 (by decide)⟩

theorem pixLoop_nodup (width height : Nat) : (pixLoop width height).Nodup := by
  unfold pixLoop
  rw [List.nodup_flatMap]
  constructor
  · intro y _
    exact (List.nodup_range width).map (fun a b h => (Prod.mk.inj h).2)
  · apply List.Nodup.pairwise_of_forall_ne (List.nodup_reverse.2 (List.nodup_range height))
    intro a _ b _ hab
    simp only [Function.onFun]
    intro p hp hq
    simp only [List.mem_map, List.mem_range] at hp hq
    obtain ⟨_, _, rfl⟩ := hp
    obtain ⟨_, _, h⟩ := hq
    exact hab (Prod.mk.inj h).1.symm

theorem pixWrites_nodup (width height : Nat) : (pixWrites width height).Nodup := by
  unfold pixWrites
  apply List.Nodup.map_on _ (pixLoop_nodup width height)
  intro a ha b hb h
  rw [mem_pixLoop] at ha hb
  have := dstIndex_inj width height a.1 a.2 b.1 b.2 ha.1 ha.2 hb.1 hb.2 h
  exact Prod.ext this.1 this.2

theorem mem_pixWrites (width height d : Nat) :
    d ∈ pixWrites width height ↔ d < width * height := by
  unfold pixWrites
  simp only [List.mem_map]
  constructor
  · rintro ⟨yx, hyx, rfl⟩
    rw [mem_pixLoop] at hyx
    exact dstIndex_lt width height yx.1 yx.2 hyx.1 hyx.2
  · intro hd
    have hw : 0 < width := by
      rcases Nat.eq_zero_or_pos width with h | h
      · rw [h] at hd; simp at hd
      · exact h
    have hq : d / width < height := by
      rw [Nat.div_lt_iff_lt_mul hw, Nat.mul_comm]; exact hd
    have hm : d % width < width := Nat.mod_lt _ hw
    have hdm : d / width * width + d % width = d := by
      rw [Nat.mul_comm]; exact Nat.div_add_mod d width
    generalize d / width = q at hq hdm
    refine ⟨(height - 1 - q, d % width), (mem_pixLoop _ _ _).2 ⟨by omega, hm⟩, ?_⟩
    simp only [dstIndex]
    have : height - (height - 1 - q) - 1 = q := by omega
    rw [this]
    exact hdm

theorem mem_pixReads (width height i : Nat) (hi : i ∈ pixReads width height) :
    i < width * height * 4 := by
  unfold pixReads at hi
  simp only [List.mem_flatMap, List.mem_map, List.mem_range] at hi
  obtain ⟨yx, hyx, c, hc, rfl⟩ := hi
  rw [mem_pixLoop] at hyx
  exact srcIndex_lt width height yx.1 yx.2 c hyx.1 hyx.2 hc

/-- Claim C10: on a buffer of at least `width*height*4` bytes every read index of
`pixToPictureData` is below `len(pixels)`, every write index is below
`width*height`, the call returns without an out-of-range access, and the write
indices hit every output pixel exactly once. -/
theorem pixToPictureData_in_bounds (pixels : List Byte) (width height : Nat)
    (hlen : width * height * 4 ≤ pixels.length) :
    (∀ i ∈ pixReads width height, i < pixels.length) ∧
    (∀ d ∈ pixWrites width height, d < width * height) ∧
    (pixToPictureData pixels width height).isSome = true ∧
    (∀ d, d < width * height → (pixWrites width height).count d = 1) := by
  refine ⟨fun i hi => lt_of_lt_of_le (mem_pixReads width height i hi) hlen,
    fun d hd => (mem_pixWrites width height d).1 hd, ?_, ?_⟩
  · rw [pixToPictureData_eq pixels width height hlen]; rfl
  · intro d hd
    exact List.count_eq_one_of_mem (pixWrites_nodup width height)
      ((mem_pixWrites width height d).2 hd)

/-- Instance of claim C10 on a 2x1 image carried by a buffer with one spare byte. -/
theorem pixToPictureData_in_bounds_witness :
    2 * 1 * 4 ≤ ([9, 8, 7, 6, 5, 4, 3, 2, 1] : List Byte).length ∧
    (∀ i ∈ pixReads 2 1, i < ([9, 8, 7, 6, 5, 4, 3, 2, 1] : List Byte).length) ∧
    (∀ d ∈ pixWrites 2 1, d < 2 * 1) ∧
    (pixToPictureData [9, 8, 7, 6, 5, 4, 3, 2, 1] 2 1).isSome = true ∧
    (∀ d, d < 2 * 1 → (pixWrites 2 1).count d = 1) :=
  ⟨by decide, pixToPictureData_in_bounds [9, 8, 7, 6, 5, 4, 3, 2, 1] 2 1 (by decide)⟩

/-! ## Row packing -/

theorem rowBody_eq (frame : Frame) (startPos : Nat) (buf : List Byte) (i : Nat)
    (hs : startPos + i < frame.data0.length) (hi : i < buf.length) :
    rowBody frame startPos buf i = some (buf.set i (frame.data0.getD (startPos + i) 0)) := by
  simp [rowBody, List.getElem?_eq_getElem hs, List.getElem?_eq_getElem hi,
    List.getD_eq_getElem _ _ hs]

theorem foldlM_rowBody (frame : Frame) (startPos n : Nat) (l : List Nat) :
    ∀ buf : List Byte, buf.length = n →
      (∀ i ∈ l, startPos + i < frame.data0.length ∧ i < n) →
      l.foldlM (rowBody frame startPos) buf
        = some (writeAll (fun i => i) (fun i => frame.data0.getD (startPos + i) 0) l buf) := by
  induction l with
  | nil => intro buf _ _; rfl
  | cons a l ih =>
    intro buf hn h
    have ha := h a (List.mem_cons_self _ _)
    rw [List.foldlM_cons, rowBody_eq frame startPos buf a ha.1 (by rw [hn]; exact ha.2)]
    simp only [Option.bind_eq_bind, Option.some_bind]
    rw [ih _ (by simpa using hn) (fun b hb => h b (List.mem_cons_of_mem _ hb))]
    rfl

theorem packedRow_length (frame : Frame) (startPos n : Nat) :
    (packedRow frame startPos n).length = n := by
  simp [packedRow, writeAll_length]

theorem packedRow_getElem? (frame : Frame) (startPos n i : Nat) (hi : i < n)
    (hs : startPos + i < frame.data0.length) :
    (packedRow frame startPos n)[i]? = frame.data0[startPos + i]? := by
  unfold packedRow
  rw [List.getElem?_eq_getElem hs, ← List.getD_eq_getElem _ 0 hs]
  apply writeAll_written
  · simpa using hi
  · exact ⟨i, List.mem_range.2 hi, rfl⟩
  · intro a _ ha
    rw [ha]

theorem frameRowBody_eq (frame : Frame) (width : Nat) (pix : List Byte) (y : Nat)
    (h : y * frame.linesize0 + width * 4 ≤ frame.data0.length) :
    frameRowBody frame width pix y
      = some (pix ++ packedRow frame (y * frame.linesize0) (width * 4)) := by
  unfold frameRowBody
  simp only []
  rw [foldlM_rowBody frame (y * frame.linesize0) (width * 4) _ _ (by simp)]
  · rfl
  · intro i hi
    rw [List.mem_range] at hi
    exact ⟨by omega, hi⟩

theorem foldlM_frameRowBody (frame : Frame) (width : Nat) :
    ∀ k : Nat, (∀ y, y < k → y * frame.linesize0 + width * 4 ≤ frame.data0.length) →
      ∃ pix, (List.range k).foldlM (frameRowBody frame width) [] = some pix ∧
        pix.length = k * (width * 4) ∧
        ∀ y i, y < k → i < width * 4 →
          pix[y * (width * 4) + i]? = frame.data0[y * frame.linesize0 + i]? := by
  intro k
  induction k with
  | zero => intro _; exact ⟨[], rfl, by simp, fun y i hy _ => absurd hy (Nat.not_lt_zero y)⟩
  | succ k ih =>
    intro hrows
    obtain ⟨pix, hpix, hlen, hget⟩ := ih (fun y hy => hrows y (Nat.lt_succ_of_lt hy))
    have hk := hrows k (Nat.lt_succ_self k)
    refine ⟨pix ++ packedRow frame (k * frame.linesize0) (width * 4), ?_, ?_, ?_⟩
    · rw [List.range_succ, List.foldlM_append, hpix]
      simp only [Option.bind_eq_bind, Option.some_bind, List.foldlM_cons, List.foldlM_nil]
      rw [frameRowBody_eq frame width pix k hk]
      rfl
    · rw [List.length_append, hlen, packedRow_length]; ring
    · intro y i hy hi
      rcases Nat.lt_succ_iff_lt_or_eq.1 hy with hlt | rfl
      · rw [List.getElem?_append_left (by rw [hlen]; exact row_col_lt y i _ k hlt hi)]
        exact hget y i hlt hi
      · rw [List.getElem?_append_right (by rw [hlen]; omega), hlen,
          Nat.add_sub_cancel_left]
        exact packedRow_getElem? frame _ _ i hi (by omega)

theorem rows_fit (frame : Frame) (width height : Nat)
    (hsz : ((height : Int) - 1) * (frame.linesize0 : Int) + ((width * 4 : Nat) : Int)
      ≤ (frame.data0.length : Int)) :
    ∀ y, y < height → y * frame.linesize0 + width * 4 ≤ frame.data0.length := by
  intro y hy
  obtain ⟨k, rfl⟩ : ∃ k, height = k + 1 := ⟨height - 1, by omega⟩
  have h1 : k * frame.linesize0 + width * 4 ≤ frame.data0.length := by
    have : ((k + 1 : Nat) : Int) - 1 = (k : Int) := by push_cast; ring
    rw [this] at hsz
    exact_mod_cast hsz
  have h2 : y * frame.linesize0 ≤ k * frame.linesize0 :=
    Nat.mul_le_mul_right _ (Nat.lt_succ_iff.1 hy)
  omega

/-- Claim C2: when the line size is at least `width*4` and plane 0 holds at least
`(height-1)*L + width*4` bytes, the buffer `getFrameRGBA` packs has exactly
`width*height*4` bytes and its byte `y*width*4 + i` is the source byte `y*L + i`
for every row `y < height` and every `i < width*4`, a byte that lies in source row
`y` at offset `i`, before the padding of that row; it is this buffer that is
handed to `pixToPictureData`. -/
theorem getFrameRGBA_packs_rows (frame : Frame) (width height : Nat)
    (hL : width * 4 ≤ frame.linesize0)
    (hsz : ((height : Int) - 1) * (frame.linesize0 : Int) + ((width * 4 : Nat) : Int)
      ≤ (frame.data0.length : Int)) :
    ∃ pix, packFrame frame width height = some pix ∧
      getFrameRGBA frame width height = pixToPictureData pix width height ∧
      pix.length = width * height * 4 ∧
      ∀ y i, y < height → i < width * 4 →
        ∃ b, pix[y * width * 4 + i]? = some b ∧
          frame.data0[y * frame.linesize0 + i]? = some b ∧
          (y * frame.linesize0 + i) / frame.linesize0 = y ∧
          (y * frame.linesize0 + i) % frame.linesize0 = i := by
  obtain ⟨pix, hpix, hlen, hget⟩ :=
    foldlM_frameRowBody frame width height (rows_fit frame width height hsz)
  refine ⟨pix, hpix, ?_, ?_, ?_⟩
  · unfold getFrameRGBA packFrame
    rw [hpix]; rfl
  · rw [hlen]; ring
  · intro y i hy hi
    have hin : y * frame.linesize0 + i < frame.data0.length := by
      have := rows_fit frame width height hsz y hy
      omega
    have hiL : i < frame.linesize0 := lt_of_lt_of_le hi hL
    refine ⟨frame.data0[y * frame.linesize0 + i], ?_, List.getElem?_eq_getElem hin, ?_, ?_⟩
    · rw [Nat.mul_assoc, hget y i hy hi, List.getElem?_eq_getElem hin]
    · rw [Nat.mul_comm, Nat.mul_add_div (by omega), Nat.div_eq_of_lt hiL, Nat.add_zero]
    · rw [Nat.mul_comm, Nat.mul_add_mod, Nat.mod_eq_of_lt hiL]

/-- Instance of claim C2 on `paddedFrame`. -/
theorem getFrameRGBA_packs_rows_witness :
    packFrame paddedFrame 1 2 = some [1, 2, 3, 4, 5, 6, 7, 8] ∧
    ∃ pix, packFrame paddedFrame 1 2 = some pix ∧
      getFrameRGBA paddedFrame 1 2 = pixToPictureData pix 1 2 ∧
      pix.length = 1 * 2 * 4 ∧
      ∀ y i, y < 2 → i < 1 * 4 →
        ∃ b, pix[y * 1 * 4 + i]? = some b ∧
          paddedFrame.data0[y * paddedFrame.linesize0 + i]? = some b ∧
          (y * paddedFrame.linesize0 + i) / paddedFrame.linesize0 = y ∧
          (y * paddedFrame.linesize0 + i) % paddedFrame.linesize0 = i :=
  ⟨by decide, getFrameRGBA_packs_rows paddedFrame 1 2 (by decide) (by decide)⟩

/-! ## The frame producer -/

theorem getFrameRGBA_isSome (frame : Frame) (width height : Nat)
    (h : FrameFits frame width height) :
    ∃ pic, getFrameRGBA frame width height = some pic := by
  obtain ⟨pix, hpix, hlen, _⟩ :=
    foldlM_frameRowBody frame width height (rows_fit frame width height h)
  refine ⟨PictureData.mk (flippedPix pix width height) width width height, ?_⟩
  unfold getFrameRGBA packFrame
  rw [hpix]
  exact pixToPictureData_eq pix width height (by rw [hlen]; exact le_of_eq (by ring))

theorem andThen_skip_left (r : Run) : Run.skip.andThen r = r := by
  cases r; rfl

theorem andThen_halt_none (a b : Run) (ha : a.halt = none) :
    a.andThen b = Run.mk (a.events ++ b.events) b.halt := by
  unfold Run.andThen; rw [ha]

theorem pushed_append (a b : List Event) : pushed (a ++ b) = pushed a ++ pushed b := by
  induction a with
  | nil => rfl
  | cons e a ih => cases e <;> simp [pushed, ih]

theorem framesReturned_append (a b : List Event) :
    framesReturned (a ++ b) = framesReturned a ++ framesReturned b := by
  induction a with
  | nil => rfl
  | cons e a ih =>
    cases e with
    | receiveFrame r =>
      simp only [List.cons_append, framesReturned]
      split <;> simp [ih]
    | _ => simpa [framesReturned] using ih

theorem faithful_skip (width height : Nat) : Faithful width height [] Run.skip :=
  ⟨rfl, rfl, rfl⟩

theorem faithful_andThen (width height : Nat) (fa fb : List Frame) (a b : Run)
    (ha : Faithful width height fa a) (hb : Faithful width height fb b) :
    Faithful width height (fa ++ fb) (a.andThen b) := by
  obtain ⟨ha1, ha2, ha3⟩ := ha
  obtain ⟨hb1, hb2, hb3⟩ := hb
  rw [andThen_halt_none a b ha1]
  refine ⟨hb1, ?_, ?_⟩
  · simp only [framesReturned_append, ha2, hb2]
  · simp only [pushed_append, List.map_append, ha3, hb3]

theorem drainLoop_faithful (c : AvError) (width height : Nat)
    (hE : c.AvErrorEAGAIN < 0) (hF : c.AvErrorEOF < 0) :
    ∀ receives : List Received,
      (∀ r ∈ receives, 0 ≤ r.response ∨ r.response = c.AvErrorEAGAIN ∨
        r.response = c.AvErrorEOF) →
      (∀ r ∈ receives, 0 ≤ r.response → FrameFits r.rgb width height) →
      Faithful width height
        ((receives.takeWhile (fun r => decide (0 ≤ r.response))).map Received.rgb)
        (drainLoop c width height receives) := by
  intro receives
  induction receives with
  | nil => intro _ _; exact faithful_skip width height
  | cons r rest ih =>
    intro hrecv hfit
    have hr := hrecv r (List.mem_cons_self _ _)
    have ih' := ih (fun q hq => hrecv q (List.mem_cons_of_mem _ hq))
      (fun q hq => hfit q (List.mem_cons_of_mem _ hq))
    by_cases hbr : r.response = c.AvErrorEAGAIN ∨ r.response = c.AvErrorEOF
    · have hneg : ¬ 0 ≤ r.response := by
        rcases hbr with h | h <;> rw [h] <;> omega
      simp only [drainLoop, hbr, if_true, List.takeWhile_cons, hneg, decide_False,
        List.map_nil]
      refine ⟨rfl, ?_, rfl⟩
      simp [framesReturned, hneg]
    · have hpos : 0 ≤ r.response := by
        rcases hr with h | h | h
        · exact h
        · exact absurd (Or.inl h) hbr
        · exact absurd (Or.inr h) hbr
      have hnl : ¬ r.response < 0 := by omega
      obtain ⟨pic, hpic⟩ := getFrameRGBA_isSome r.rgb width height
        (hfit r (List.mem_cons_self _ _) hpos)
      simp only [drainLoop, hbr, if_false, hnl, hpic, hpos, if_true, List.takeWhile_cons,
        decide_True, List.map_cons, List.append_nil]
      have hhead : Faithful width height [r.rgb]
          (Run.mk [Event.receiveFrame r, Event.push pic] none) := by
        refine ⟨rfl, ?_, ?_⟩
        · simp [framesReturned, hpos]
        · simp [pushed, hpic]
      exact faithful_andThen width height [r.rgb] _ _ _ hhead ih'

theorem packetBody_faithful (c : AvError) (i width height : Nat) (packet : Packet)
    (hE : c.AvErrorEAGAIN < 0) (hF : c.AvErrorEOF < 0)
    (hrecv : ∀ r ∈ packet.receives, 0 ≤ r.response ∨ r.response = c.AvErrorEAGAIN ∨
      r.response = c.AvErrorEOF)
    (hfit : ∀ r ∈ packet.receives, 0 ≤ r.response → FrameFits r.rgb width height) :
    Faithful width height (framesDecoded i [packet]) (packetBody c i width height packet) := by
  unfold packetBody framesDecoded
  by_cases hsel : packet.StreamIndex = (i : Int)
  · by_cases hsend : 0 ≤ packet.sendResponse
    · have hnl : ¬ packet.sendResponse < 0 := by omega
      simp only [hsel, hsend, hnl, if_true, if_false, List.filter_cons, and_self,
        decide_True, List.filter_nil, List.flatMap_cons, List.flatMap_nil, List.append_nil]
      have hd := drainLoop_faithful c width height hE hF packet.receives hrecv hfit
      have := faithful_andThen width height [] _
        (Run.mk [Event.sendPacket packet.sendResponse] none) _ ⟨rfl, rfl, rfl⟩ hd
      simpa [framesOfPacket] using this
    · have hl : packet.sendResponse < 0 := by omega
      simp only [hsel, hsend, hl, if_true, if_false, List.filter_cons, and_false,
        decide_False, List.filter_nil, List.flatMap_nil]
      exact ⟨rfl, rfl, rfl⟩
  · simp only [hsel, if_false, List.filter_cons, false_and, decide_False, List.filter_nil,
      List.flatMap_nil]
    exact faithful_skip width height

theorem framesDecoded_cons (i : Nat) (packet : Packet) (rest : List Packet) :
    framesDecoded i (packet :: rest) = framesDecoded i [packet] ++ framesDecoded i rest := by
  unfold framesDecoded
  rw [← List.flatMap_append, ← List.filter_append]
  rfl

theorem packetLoop_faithful (c : AvError) (i width height : Nat)
    (hE : c.AvErrorEAGAIN < 0) (hF : c.AvErrorEOF < 0) :
    ∀ packets : List Packet,
      (∀ p ∈ packets, ∀ r ∈ p.receives, 0 ≤ r.response ∨ r.response = c.AvErrorEAGAIN ∨
        r.response = c.AvErrorEOF) →
      (∀ p ∈ packets, ∀ r ∈ p.receives, 0 ≤ r.response → FrameFits r.rgb width height) →
      Faithful width height (framesDecoded i packets) (packetLoop c i width height packets) := by
  intro packets
  induction packets with
  | nil => intro _ _; exact faithful_skip width height
  | cons p rest ih =>
    intro hrecv hfit
    rw [framesDecoded_cons]
    simp only [packetLoop]
    exact faithful_andThen width height _ _ _ _
      (packetBody_faithful c i width height p hE hF (hrecv p (List.mem_cons_self _ _))
        (hfit p (List.mem_cons_self _ _)))
      (ih (fun q hq => hrecv q (List.mem_cons_of_mem _ hq))
        (fun q hq => hfit q (List.mem_cons_of_mem _ hq)))

theorem packetLoop_filter (c : AvError) (i width height : Nat) (packets : List Packet) :
    packetLoop c i width height
        (packets.filter (fun packet => decide (packet.StreamIndex = (i : Int))))
      = packetLoop c i width height packets := by
  induction packets with
  | nil => rfl
  | cons p rest ih =>
    by_cases hsel : p.StreamIndex = (i : Int)
    · simp only [List.filter_cons, hsel, decide_True, if_true, packetLoop, ih]
    · simp only [List.filter_cons, hsel, decide_False, packetLoop, packetBody, if_false,
        andThen_skip_left]
      simpa using ih

/-- When the two constants are negative, every receive call answers a frame or one
of the two constants, and `pFrameRGB` holds the rows of a `width` x `height` RGBA
frame whenever a frame is returned, the packet loop for stream `i` runs to its end,
the frames its receive calls return are the frames the decoder delivers for the
accepted packets of stream `i` in decode order, the pictures it pushes are the
conversions of exactly these frames in the same order, each once, and removing
the packets of other streams changes nothing. -/
theorem packetLoop_faithful_on_recognised_answers (c : AvError) (i width height : Nat)
    (packets : List Packet) (hE : c.AvErrorEAGAIN < 0) (hF : c.AvErrorEOF < 0)
    (hrecv : ∀ p ∈ packets, ∀ r ∈ p.receives, 0 ≤ r.response ∨
      r.response = c.AvErrorEAGAIN ∨ r.response = c.AvErrorEOF)
    (hfit : ∀ p ∈ packets, ∀ r ∈ p.receives, 0 ≤ r.response →
      FrameFits r.rgb width height) :
    (packetLoop c i width height packets).halt = none ∧
    framesReturned (packetLoop c i width height packets).events = framesDecoded i packets ∧
    (pushed (packetLoop c i width height packets).events).map some
      = (framesDecoded i packets).map (fun f => getFrameRGBA f width height) ∧
    packetLoop c i width height
        (packets.filter (fun packet => decide (packet.StreamIndex = (i : Int))))
      = packetLoop c i width height packets :=
  ⟨(packetLoop_faithful c i width height hE hF packets hrecv hfit).1,
    (packetLoop_faithful c i width height hE hF packets hrecv hfit).2.1,
    (packetLoop_faithful c i width height hE hF packets hrecv hfit).2.2,
    packetLoop_filter c i width height packets⟩

set_option maxRecDepth 100000 in
/-- The stress stream on a platform whose "not ready" answer is -35, the value of
goav's constant: the 100 frames give the 100 pictures, in order. -/
theorem packetLoop_stress_recognised :
    pushed (packetLoop goavCodes 0 1 1 (stressPackets (-35))).events
      = (List.range 100).map (fun k => greyPicture (Fin.ofNat k)) ∧
    (pushed (packetLoop goavCodes 0 1 1 (stressPackets (-35))).events).map some
      = (framesDecoded 0 (stressPackets (-35))).map (fun f => getFrameRGBA f 1 1) :=
  ⟨by decide,
    (packetLoop_faithful_on_recognised_answers goavCodes 0 1 1 (stressPackets (-35))
      (by decide) (by decide) (by decide) (by decide)).2.2.1⟩

set_option maxRecDepth 100000 in
/-- Claim C6, the code on a Linux decoder, whose "not ready" answer is -11 while the
constant the code tests is goav's -35: the answer is taken for an error, the error
is printed and the code falls through to the conversion and the push, so the
picture of the frame converted last is pushed a second time.  On the stress stream
the decoder returns the 100 frames in order and the loop pushes 200 pictures; they
begin with picture 0 twice. -/
theorem packetLoop_repeats_frame_on_linux_not_ready :
    packetLoop goavCodes 0 1 1 [linuxFramePacket 7]
      = Run.mk [Event.sendPacket 0, Event.receiveFrame (Received.mk 0 (greyFrame 7)),
          Event.push (greyPicture 7), Event.receiveFrame (Received.mk (-11) (greyFrame 7)),
          Event.print (Diag.errorReceivingFrame (-11)), Event.push (greyPicture 7)] none ∧
    framesDecoded 0 (stressPackets (-11)) = (List.range 100).map stressFrame ∧
    (pushed (packetLoop goavCodes 0 1 1 (stressPackets (-11))).events).length = 200 ∧
    (pushed (packetLoop goavCodes 0 1 1 (stressPackets (-11))).events).take 3
      = [greyPicture 0, greyPicture 0, greyPicture 1] := by
  decide

theorem streamBody_not_video (c : AvError) (i : Nat) (st : Stream) (packets : List Packet)
    (h : st.codecType ≠ MediaType.video) :
    streamBody c i st packets = fatal Diag.didntFindVideoStream := by
  unfold streamBody
  cases hst : st.codecType <;> simp_all

theorem readVideoFrames_first_not_video (inp : Input) (st : Stream) (rest : List Stream)
    (hopen : inp.openInput = 0) (hinfo : 0 ≤ inp.findStreamInfo)
    (hs : inp.streams = st :: rest) (h : st.codecType ≠ MediaType.video) :
    readVideoFrames inp = fatal Diag.didntFindVideoStream := by
  have hinfo' : ¬ inp.findStreamInfo < 0 := by omega
  simp only [readVideoFrames, hopen, hinfo', scanStreams, hs, ne_eq, not_true_eq_false,
    if_false, streamBody_not_video _ _ _ _ h]
  rfl

theorem drainLoop_receive_error (c : AvError) (width height : Nat) (r : Received)
    (rest : List Received) (frame : PictureData) (hneg : r.response < 0)
    (hE : r.response ≠ c.AvErrorEAGAIN) (hF : r.response ≠ c.AvErrorEOF)
    (hconv : getFrameRGBA r.rgb width height = some frame) :
    drainLoop c width height (r :: rest)
      = Run.mk [Event.receiveFrame r, Event.print (Diag.errorReceivingFrame r.response),
          Event.push frame] none := by
  have hnp : ¬ 0 ≤ r.response := by omega
  simp [drainLoop, hE, hF, hneg, hconv, hnp, Run.andThen, Run.skip]

theorem andThen_halt_eq_none (a b : Run) (h : (a.andThen b).halt = none) :
    a.halt = none ∧ b.halt = none := by
  unfold Run.andThen at h
  cases ha : a.halt with
  | none => rw [ha] at h; exact ⟨rfl, h⟩
  | some x => rw [ha] at h; exact absurd h (by simp)

/-- The `break` of line 217 does not end the stream loop: were the closed input to
report a stream of index 1 that is not a video stream, the loop would reach it
and the run would not reach the end of the goroutine. -/
theorem readVideoFrames_second_stream_not_video (inp : Input) (st next : Stream)
    (rest more : List Stream) (hs : inp.streams = st :: rest)
    (hc : inp.closedStreams.drop 1 = next :: more)
    (hnext : next.codecType ≠ MediaType.video) :
    (readVideoFrames inp).halt ≠ none := by
  intro hnone
  unfold readVideoFrames at hnone
  split at hnone
  · exact absurd hnone (by simp [fatal])
  · split at hnone
    · exact absurd hnone (by simp [fatal])
    · have h1 := (andThen_halt_eq_none _ _ hnone).1
      unfold scanStreams at h1
      simp only [hs, hc] at h1
      have h2 := (andThen_halt_eq_none _ _ h1).2
      simp only [scanClosed] at h2
      have h3 := (andThen_halt_eq_none _ _ h2).1
      rw [streamBody_not_video _ _ _ _ hnext] at h3
      exact absurd h3 (by simp [fatal])

/-- Claim C3, the code on the stream list `[audio, video]`: the first pass of the
stream loop takes the `default` branch for the audio stream, prints "Didn't find a
video stream" and exits with status 1; the video stream of index 1 is never
selected and none of its frames is pushed. -/
theorem readVideoFrames_audio_before_video :
    readVideoFrames (fileOf [audioStream, videoStream] [secondStreamPacket 7])
      = Run.mk [Event.print Diag.didntFindVideoStream] (some (Halt.osExit 1)) := by
  decide

/-- Claim C4, the code on the empty stream list: the stream loop makes no pass, no
message is printed, and the producer closes the queue and returns as it does at
the end of a video. -/
theorem readVideoFrames_no_streams :
    readVideoFrames (fileOf [] []) = Run.mk [Event.closeQueue] none := by
  decide

theorem andThen_skip_right (r : Run) : r.andThen Run.skip = r := by
  unfold Run.andThen Run.skip
  cases r with
  | mk events halt => cases halt <;> simp

theorem scanStreams_closed_nil (inp : Input) (first : Stream) (rest : List Stream)
    (hclosed : inp.closedStreams = []) (hs : inp.streams = first :: rest) :
    scanStreams inp = streamBody inp.codes 0 first inp.packets := by
  unfold scanStreams
  simp only [hs, hclosed, List.drop_nil, scanClosed]
  exact andThen_skip_right _

/-- Claim C5: when the closed input reports no stream, as FFmpeg leaves it, and the
first video stream of the list is at index `k`, the streams after index `k` are
ignored: the run of the producer is the run on the list cut off after index `k`,
event for event and with the same end.  The stream loop makes one pass only, for
stream 0, which is a video stream exactly when `k = 0`; in that case the run of a
file that opens is the decode branch of stream 0 followed by the close of the
queue, so that no later stream brings a failure exit or a second decode. -/
theorem readVideoFrames_ignores_later_streams (inp : Input) (k : Nat) (st : Stream)
    (hclosed : inp.closedStreams = [])
    (hk : inp.streams[k]? = some st) (hvideo : st.codecType = MediaType.video)
    (hfirst : ∀ j s, j < k → inp.streams[j]? = some s → s.codecType ≠ MediaType.video) :
    readVideoFrames inp = readVideoFrames (inp.cutAfter k) ∧
    (∃ first, inp.streams.head? = some first ∧
      (first.codecType = MediaType.video ↔ k = 0) ∧
      scanStreams inp = streamBody inp.codes 0 first inp.packets ∧
      scanStreams (inp.cutAfter k) = streamBody inp.codes 0 first inp.packets) ∧
    (k = 0 → inp.openInput = 0 → 0 ≤ inp.findStreamInfo →
      readVideoFrames inp
        = (decodeStream inp.codes 0 st inp.packets).andThen
            (Run.mk [Event.closeQueue] none)) := by
  cases hs : inp.streams with
  | nil => rw [hs] at hk; simp at hk
  | cons first rest =>
    have hscan := scanStreams_closed_nil inp first rest hclosed hs
    have hcut : scanStreams (inp.cutAfter k) = streamBody inp.codes 0 first inp.packets :=
      scanStreams_closed_nil (inp.cutAfter k) first (rest.take k) hclosed
        (by simp [Input.cutAfter, hs])
    have hiff : first.codecType = MediaType.video ↔ k = 0 := by
      constructor
      · intro hv
        rcases Nat.eq_zero_or_pos k with h0 | hpos
        · exact h0
        · exact absurd hv (hfirst 0 first hpos (by simp [hs]))
      · intro h0
        subst h0
        rw [hs] at hk
        simp only [List.getElem?_cons_zero, Option.some.injEq] at hk
        rw [hk]; exact hvideo
    refine ⟨?_, ⟨first, by simp, hiff, hscan, hcut⟩, ?_⟩
    · unfold readVideoFrames
      rw [hscan, hcut]
      rfl
    · intro h0 hopen hinfo
      subst h0
      rw [hs] at hk
      simp only [List.getElem?_cons_zero, Option.some.injEq] at hk
      subst hk
      have hinfo' : ¬ inp.findStreamInfo < 0 := by omega
      unfold readVideoFrames
      rw [if_neg (by simp [hopen]), if_neg hinfo', hscan]
      unfold streamBody
      simp only [hvideo]

/-- Instance of claim C5 on the stream list `[video, audio]`: the run is the run on
`[video]`; the frame of stream 0 is pushed, the input and then the queue are
closed, and the audio stream brings no failure exit. -/
theorem readVideoFrames_ignores_later_streams_witness :
    (fileOf [videoStream, audioStream] [framePacket 7]).closedStreams = [] ∧
    readVideoFrames (fileOf [videoStream, audioStream] [framePacket 7])
      = Run.mk [Event.sendPacket 0, Event.receiveFrame (Received.mk 0 (greyFrame 7)),
          Event.push (greyPicture 7), Event.receiveFrame (Received.mk (-35) (greyFrame 7)),
          Event.closeInput, Event.closeQueue] none ∧
    readVideoFrames (fileOf [videoStream, audioStream] [framePacket 7])
      = readVideoFrames (fileOf [videoStream] [framePacket 7]) ∧
    readVideoFrames (fileOf [videoStream, audioStream] [framePacket 7])
      = readVideoFrames ((fileOf [videoStream, audioStream] [framePacket 7]).cutAfter 0) :=
  ⟨by decide, by decide, by decide,
    (readVideoFrames_ignores_later_streams (fileOf [videoStream, audioStream] [framePacket 7])
      0 videoStream (by decide) (by decide) (by decide)
      (fun j _ h => absurd h (Nat.not_lt_zero j))).1⟩

/-- Claim C7, the code on a receive call that fails with `AVERROR_INVALIDDATA`: the
error is printed and the code falls through to the conversion, so a picture is
pushed for the failed call; the producer then reads the next packet. -/
theorem packetLoop_pushes_after_receive_error :
    packetLoop goavCodes 0 1 1 [corruptPacket 9, framePacket 7]
      = Run.mk [Event.sendPacket 0,
          Event.receiveFrame (Received.mk (-1094995529) (greyFrame 9)),
          Event.print (Diag.errorReceivingFrame (-1094995529)),
          Event.push (greyPicture 9),
          Event.sendPacket 0, Event.receiveFrame (Received.mk 0 (greyFrame 7)),
          Event.push (greyPicture 7), Event.receiveFrame (Received.mk (-35) (greyFrame 7))]
          none := by
  decide

/-! ## The pushes of a whole run -/

theorem pushed_andThen (a b : Run) (hb : pushed b.events = []) :
    pushed (a.andThen b).events = pushed a.events := by
  unfold Run.andThen
  cases a.halt with
  | none => simp [pushed_append, hb]
  | some _ => rfl

theorem pushed_streamBody_nil (c : AvError) (i : Nat) (st : Stream) :
    pushed (streamBody c i st []).events = [] := by
  unfold streamBody decodeStream
  split
  · split
    · rfl
    · split
      · rfl
      · split
        · rfl
        · split
          · rfl
          · rfl
  · rfl

theorem pushed_scanClosed (c : AvError) :
    ∀ (streams : List Stream) (i : Nat), pushed (scanClosed c i streams).events = [] := by
  intro streams
  induction streams with
  | nil => intro i; rfl
  | cons st rest ih =>
    intro i
    simp only [scanClosed]
    rw [pushed_andThen _ _ (ih (i + 1))]
    exact pushed_streamBody_nil c i st

/-- The pictures a whole run of the producer pushes are those of the packet loop of
stream 0, when the file opens, stream 0 is a video stream and its set-up calls
succeed. -/
theorem readVideoFrames_pushed (inp : Input) (st : Stream) (rest : List Stream)
    (hopen : inp.openInput = 0) (hinfo : 0 ≤ inp.findStreamInfo)
    (hs : inp.streams = st :: rest) (hvideo : st.codecType = MediaType.video)
    (hdec : st.decoderFound = true) (hcopy : st.copyContext = 0) (hop : 0 ≤ st.open2)
    (hrgb : st.rgbFrameAllocated = true) :
    pushed (readVideoFrames inp).events
      = pushed (packetLoop inp.codes 0 st.Width st.Height inp.packets).events := by
  have hinfo' : ¬ inp.findStreamInfo < 0 := by omega
  have hop' : ¬ st.open2 < 0 := by omega
  unfold readVideoFrames
  rw [if_neg (by simp [hopen]), if_neg hinfo',
    pushed_andThen _ (Run.mk [Event.closeQueue] none) rfl]
  unfold scanStreams
  simp only [hs]
  rw [pushed_andThen _ _ (pushed_scanClosed _ _ _)]
  unfold streamBody
  simp only [hvideo, decodeStream, hdec, hcopy, hop', hrgb]
  simp only [Bool.true_eq_false, if_false, ne_eq, not_true_eq_false]
  exact pushed_andThen _ (Run.mk [Event.closeInput] none) rfl

/-! ## Closing the queue -/

theorem noClose_skip : NoClose Run.skip := by simp [NoClose, Run.skip]

theorem noClose_fatal (d : Diag) : NoClose (fatal d) := by simp [NoClose, fatal]

theorem noClose_andThen (a b : Run) (ha : NoClose a) (hb : NoClose b) :
    NoClose (a.andThen b) := by
  unfold NoClose Run.andThen at *
  cases h : a.halt with
  | none => simp only [List.mem_append, not_or]; exact ⟨ha, hb⟩
  | some _ => exact ha

theorem noClose_drainLoop (c : AvError) (width height : Nat) :
    ∀ receives : List Received, NoClose (drainLoop c width height receives) := by
  intro receives
  induction receives with
  | nil => exact noClose_skip
  | cons r rest ih =>
    simp only [drainLoop]
    split
    · simp [NoClose]
    · split
      · by_cases h : r.response < 0 <;> simp [NoClose, h]
      · apply noClose_andThen
        · by_cases h : r.response < 0 <;> simp [NoClose, h]
        · split
          · exact ih
          · exact noClose_skip

theorem noClose_packetBody (c : AvError) (i width height : Nat) (packet : Packet) :
    NoClose (packetBody c i width height packet) := by
  unfold packetBody
  split
  · apply noClose_andThen
    · by_cases h : packet.sendResponse < 0 <;> simp [NoClose, h]
    · split
      · exact noClose_drainLoop c width height _
      · exact noClose_skip
  · exact noClose_skip

theorem noClose_packetLoop (c : AvError) (i width height : Nat) :
    ∀ packets : List Packet, NoClose (packetLoop c i width height packets) := by
  intro packets
  induction packets with
  | nil => exact noClose_skip
  | cons p rest ih =>
    simp only [packetLoop]
    exact noClose_andThen _ _ (noClose_packetBody c i width height p) ih

theorem noClose_decodeStream (c : AvError) (i : Nat) (st : Stream) (packets : List Packet) :
    NoClose (decodeStream c i st packets) := by
  unfold decodeStream
  split
  · exact noClose_fatal _
  · split
    · exact noClose_fatal _
    · split
      · exact noClose_fatal _
      · split
        · exact noClose_fatal _
        · exact noClose_andThen _ _ (noClose_packetLoop c i _ _ packets) (by simp [NoClose])

theorem noClose_streamBody (c : AvError) (i : Nat) (st : Stream) (packets : List Packet) :
    NoClose (streamBody c i st packets) := by
  unfold streamBody
  split
  · exact noClose_decodeStream c i st packets
  · exact noClose_fatal _

theorem noClose_scanClosed (c : AvError) :
    ∀ (streams : List Stream) (i : Nat), NoClose (scanClosed c i streams) := by
  intro streams
  induction streams with
  | nil => intro i; exact noClose_skip
  | cons st rest ih =>
    intro i
    simp only [scanClosed]
    exact noClose_andThen _ _ (noClose_streamBody c i st []) (ih (i + 1))

theorem noClose_scanStreams (inp : Input) : NoClose (scanStreams inp) := by
  unfold scanStreams
  split
  · exact noClose_skip
  · exact noClose_andThen _ _ (noClose_streamBody _ _ _ _) (noClose_scanClosed _ _ _)

/-- Claim C8 fails as stated: on a file that cannot be opened the producer prints
the message and leaves through `os.Exit(1)`; the queue is not closed once but
never. -/
theorem readVideoFrames_exit_without_close :
    readVideoFrames missingFile
      = Run.mk [Event.print Diag.unableToOpenFile] (some (Halt.osExit 1)) ∧
    ¬ (closes (readVideoFrames missingFile).events = 1) := by
  decide

theorem readVideoFrames_shape (inp : Input) :
    ((readVideoFrames inp).halt = none ∧
      ∃ l, Event.closeQueue ∉ l ∧ (readVideoFrames inp).events = l ++ [Event.closeQueue]) ∨
    (∃ h, (readVideoFrames inp).halt = some h ∧
      Event.closeQueue ∉ (readVideoFrames inp).events) := by
  have hscan := noClose_scanStreams inp
  unfold NoClose at hscan
  unfold readVideoFrames
  by_cases hopen : inp.openInput ≠ 0
  · rw [if_pos hopen]
    exact Or.inr ⟨Halt.osExit 1, rfl, by simp [fatal]⟩
  · by_cases hinfo : inp.findStreamInfo < 0
    · rw [if_neg hopen, if_pos hinfo]
      exact Or.inr ⟨Halt.osExit 1, rfl, by simp [fatal]⟩
    · rw [if_neg hopen, if_neg hinfo]
      unfold Run.andThen
      cases hh : (scanStreams inp).halt with
      | none => exact Or.inl ⟨rfl, _, hscan, rfl⟩
      | some h => exact Or.inr ⟨h, rfl, hscan⟩

theorem nothing_after_last (l before after : List Event) (x : Event) (hx : x ∉ l)
    (h : l ++ [x] = before ++ x :: after) : after = [] := by
  rcases List.eq_nil_or_concat after with rfl | ⟨front, z, rfl⟩
  · rfl
  · have h2 : l ++ [x] = (before ++ x :: front) ++ [z] := by
      rw [h]; simp
    have h3 := List.append_inj_left' h2 rfl
    exact absurd (by rw [h3]; simp) hx

/-- Claim C8 as amended: a run of the producer that reaches the end of the goroutine
closes the queue exactly once, as its last event; a run that is stopped by
`os.Exit(1)` or a fault never closes the queue; in either case nothing, and so no
push, follows a close. -/
theorem readVideoFrames_closes_once_at_end (inp : Input) :
    (match (readVideoFrames inp).halt with
      | none => closes (readVideoFrames inp).events = 1 ∧
          (readVideoFrames inp).events.getLast? = some Event.closeQueue
      | some _ => closes (readVideoFrames inp).events = 0) ∧
    (∀ before after, (readVideoFrames inp).events = before ++ Event.closeQueue :: after →
      after = [] ∧ pushed after = []) := by
  rcases readVideoFrames_shape inp with ⟨hhalt, l, hl, hev⟩ | ⟨h, hhalt, hno⟩
  · rw [hhalt, hev]
    refine ⟨⟨?_, by simp⟩, ?_⟩
    · simp only [closes, List.count_append, List.count_eq_zero_of_not_mem hl]
      simp
    · intro before after hsplit
      have := nothing_after_last l before after Event.closeQueue hl hsplit
      subst this
      exact ⟨rfl, rfl⟩
  · rw [hhalt]
    refine ⟨List.count_eq_zero_of_not_mem hno, ?_⟩
    intro before after hsplit
    exact absurd (by rw [hsplit]; simp) hno

/-- Instance of claim C8 as amended: a file with one video stream of one frame is
played to its end and the queue is closed once, last; a file that cannot be
opened ends the process with the queue never closed. -/
theorem readVideoFrames_closes_once_at_end_witness :
    (readVideoFrames (fileOf [videoStream] [framePacket 7])).halt = none ∧
    closes (readVideoFrames (fileOf [videoStream] [framePacket 7])).events = 1 ∧
    (readVideoFrames (fileOf [videoStream] [framePacket 7])).events.getLast?
      = some Event.closeQueue ∧
    (readVideoFrames missingFile).halt = some (Halt.osExit 1) ∧
    closes (readVideoFrames missingFile).events = 0 ∧
    (∀ before after, (readVideoFrames (fileOf [videoStream] [framePacket 7])).events
        = before ++ Event.closeQueue :: after → after = [] ∧ pushed after = []) :=
  ⟨by decide, by decide, by decide, by decide, by decide,
    (readVideoFrames_closes_once_at_end (fileOf [videoStream] [framePacket 7])).2⟩

/-! ## The bounded queue -/

theorem System.inv_init (run : Run) : (System.init run).Inv (pushed run.events) := by
  simp [System.Inv, System.init]

theorem System.inv_step (frames : List PictureData) (s next : System) (a : Actor)
    (hinv : s.Inv frames) (hstep : s.step a = some next) : next.Inv frames := by
  obtain ⟨hcap, hcons⟩ := hinv
  cases a with
  | producer =>
    simp only [System.step] at hstep
    split at hstep
    · exact absurd hstep (by simp)
    · rename_i frame rest htodo
      split at hstep
      · rename_i hfree
        simp only [Option.some.injEq] at hstep
        subst hstep
        refine ⟨?_, ?_⟩
        · simp only [List.length_append, List.length_singleton]; omega
        · rw [htodo] at hcons
          simpa [pushed] using hcons
      · exact absurd hstep (by simp)
    · rename_i rest htodo
      simp only [Option.some.injEq] at hstep
      subst hstep
      refine ⟨hcap, ?_⟩
      rw [htodo] at hcons
      simpa [pushed] using hcons
    · rename_i e rest hnp hnc htodo
      simp only [Option.some.injEq] at hstep
      subst hstep
      refine ⟨hcap, ?_⟩
      rw [htodo] at hcons
      cases e with
      | push frame => exact (hnp frame rfl).elim
      | _ => simpa [pushed] using hcons
  | consumer =>
    simp only [System.step] at hstep
    split at hstep
    · exact absurd hstep (by simp)
    · split at hstep
      · rename_i frame rest hq
        simp only [Option.some.injEq] at hstep
        subst hstep
        rw [hq] at hcap hcons
        refine ⟨?_, ?_⟩
        · simp only [List.length_cons] at hcap ⊢; omega
        · simpa using hcons
      · split at hstep
        · exact absurd hstep (by simp)
        · simp only [Option.some.injEq] at hstep
          subst hstep
          exact ⟨hcap, hcons⟩

theorem System.inv_exec (frames : List PictureData) (schedule : List Actor) :
    ∀ s next : System, s.Inv frames → s.exec schedule = some next → next.Inv frames := by
  induction schedule with
  | nil =>
    intro s next hinv h
    simp only [System.exec, Option.some.injEq] at h
    subst h
    exact hinv
  | cons a rest ih =>
    intro s next hinv h
    simp only [System.exec] at h
    split at h
    · exact absurd h (by simp)
    · rename_i mid hmid
      exact ih mid next (System.inv_step frames s mid a hinv hmid) h

theorem System.step_shrinks (s : System) (a : Actor) (next : System)
    (hstep : s.step a = some next) (hlt : next.queue.length < s.queue.length) :
    a = Actor.consumer := by
  cases a with
  | consumer => rfl
  | producer =>
    exfalso
    simp only [System.step] at hstep
    split at hstep
    · exact absurd hstep (by simp)
    · split at hstep
      · simp only [Option.some.injEq] at hstep
        subst hstep
        simp only [List.length_append, List.length_singleton] at hlt
        omega
      · exact absurd hstep (by simp)
    · simp only [Option.some.injEq] at hstep
      subst hstep
      exact absurd hlt (Nat.lt_irrefl _)
    · simp only [Option.some.injEq] at hstep
      subst hstep
      exact absurd hlt (Nat.lt_irrefl _)

/-- Claim C9: in every state the producer/consumer system reaches from the start of
a run of `readVideoFrames`, the channel buffers at most `FrameBufferSize = 60`
frames; the frames received, buffered and still to be pushed are together the
frames of the run in their order, so none is dropped; a pending push can be taken
exactly when the buffer holds fewer than 60 frames; and when the buffer holds 60
the push cannot be taken, the render loop can take the oldest frame, which leaves
59 in their order, and after that the push can be taken; only a step of the render
loop makes the buffer shorter. -/
theorem frame_queue_bounded (inp : Input) (schedule : List Actor) (s : System)
    (hreach : (System.init (readVideoFrames inp)).exec schedule = some s) :
    FrameBufferSize = 60 ∧ s.queue.length ≤ FrameBufferSize ∧
    s.shown ++ s.queue ++ pushed s.todo = pushed (readVideoFrames inp).events ∧
    (∀ frame rest, s.todo = Event.push frame :: rest →
      ((s.step Actor.producer).isSome = true ↔ s.queue.length < FrameBufferSize)) ∧
    (∀ frame rest, s.todo = Event.push frame :: rest →
      s.queue.length = FrameBufferSize →
      s.step Actor.producer = none ∧
      ∃ next, s.step Actor.consumer = some next ∧ next.todo = s.todo ∧
        next.queue.length + 1 = FrameBufferSize ∧
        next.shown ++ next.queue = s.shown ++ s.queue ∧
        (next.step Actor.producer).isSome = true) ∧
    (∀ a next, s.step a = some next → next.queue.length < s.queue.length →
      a = Actor.consumer) := by
  obtain ⟨hcap, hcons⟩ := System.inv_exec _ schedule _ s
    (System.inv_init (readVideoFrames inp)) hreach
  refine ⟨rfl, hcap, hcons, ?_, ?_, System.step_shrinks s⟩
  · intro frame rest htodo
    simp only [System.step, htodo]
    split <;> simp_all
  · intro frame rest htodo hfull
    refine ⟨by simp [System.step, htodo, hfull], ?_⟩
    cases hq : s.queue with
    | nil => rw [hq] at hfull; exact absurd hfull (by decide)
    | cons head tail =>
      refine ⟨System.mk tail s.closed s.todo s.halt (s.shown ++ [head]), ?_, rfl, ?_, ?_, ?_⟩
      · simp [System.step, System.exited, htodo, hq]
      · rw [hq] at hfull; simpa using hfull
      · simp
      · rw [hq] at hfull
        simp only [List.length_cons] at hfull
        have : tail.length < FrameBufferSize := by omega
        simp [System.step, htodo, this]

set_option maxRecDepth 100000 in
/-- Instance of claim C9: the producer fills the buffer with the first 60 frames of
`longFile` and is then held until the render loop takes one. -/
theorem frame_queue_bounded_witness :
    (System.init (readVideoFrames longFile)).exec (List.replicate 242 Actor.producer)
      = some fullSystem ∧
    fullSystem.step Actor.producer = none ∧
    (FrameBufferSize = 60 ∧ fullSystem.queue.length ≤ FrameBufferSize ∧
    fullSystem.shown ++ fullSystem.queue ++ pushed fullSystem.todo
      = pushed (readVideoFrames longFile).events ∧
    (∀ frame rest, fullSystem.todo = Event.push frame :: rest →
      ((fullSystem.step Actor.producer).isSome = true ↔
        fullSystem.queue.length < FrameBufferSize)) ∧
    (∀ frame rest, fullSystem.todo = Event.push frame :: rest →
      fullSystem.queue.length = FrameBufferSize →
      fullSystem.step Actor.producer = none ∧
      ∃ next, fullSystem.step Actor.consumer = some next ∧ next.todo = fullSystem.todo ∧
        next.queue.length + 1 = FrameBufferSize ∧
        next.shown ++ next.queue = fullSystem.shown ++ fullSystem.queue ∧
        (next.step Actor.producer).isSome = true) ∧
    (∀ a next, fullSystem.step a = some next →
      next.queue.length < fullSystem.queue.length → a = Actor.consumer)) :=
  ⟨by decide, by decide,
    frame_queue_bounded longFile (List.replicate 242 Actor.producer) fullSystem (by decide)⟩

end PixelVideo
